import Mathlib

/-
Verification of the Prism provider / fallback / aggregation core.

The Go sources are shallowly embedded: prices are rationals, timestamps are
abstract tick counts (natural numbers), Go maps are association lists with
overwrite-on-insert semantics, `context.Context` plumbing and logging are
dropped, and every network / browser interaction is a function parameter
describing the outcome of that interaction.  Each definition names the Go
function it embeds.
-/

set_option maxHeartbeats 1000000

namespace Prism

/-- The `providers.Price` record (backend/internal/providers/provider.go lines
10-18): a point-in-time quote for one symbol.  `price` and the change fields
are modelled as rationals, `lastUpdated` as an abstract tick count. -/
structure Price where
  symbol : String
  name : String
  price : ℚ
  dailyChange : ℚ
  dailyPct : ℚ
  lastUpdated : ℕ
  stale : Bool
deriving Repr, DecidableEq, Inhabited

/-- Outcome of a Go `FetchPrices(ctx, symbols) ([]Price, error)` call: either the
price list or the error message. -/
abbrev FetchResult := Except String (List Price)

/-- A provider's fetch behaviour abstracted as a function of the symbol list. -/
abbrev ProviderFn := List String → FetchResult

/-- A Go map write `m[k] = v`, on the association-list model: the new binding
shadows (here: replaces) any previous binding of `k`. -/
def mapUpd {α : Type} (m : List (String × α)) (k : String) (v : α) :
    List (String × α) :=
  (k, v) :: m.filter (fun kv => kv.1 != k)

/-- A Go map read `v, ok := m[k]`, on the association-list model. -/
def mapGet {α : Type} (m : List (String × α)) (k : String) : Option α :=
  (m.find? (fun kv => kv.1 == k)).map (fun kv => kv.2)

theorem find?_filter_ne {α : Type} (m : List (String × α)) (k k' : String)
    (h : k' ≠ k) :
    (m.filter (fun kv => kv.1 != k)).find? (fun kv => kv.1 == k') =
      m.find? (fun kv => kv.1 == k') := by
  induction m with
  | nil => rfl
  | cons kv rest ih =>
    by_cases hk : kv.1 = k
    · have h1 : (kv.1 != k) = false := by simp [hk]
      have h2 : (kv.1 == k') = false := by
        simp [hk]
        exact fun hkk => (h hkk.symm).elim
      simp [List.filter_cons, List.find?_cons, h1, h2, ih]
    · have h1 : (kv.1 != k) = true := by simp [hk]
      by_cases hk' : kv.1 = k'
      · have h2 : (kv.1 == k') = true := by simp [hk']
        simp [List.filter_cons, List.find?_cons, h1, h2]
      · have h2 : (kv.1 == k') = false := by simp [hk']
        simp [List.filter_cons, List.find?_cons, h1, h2, ih]

/-- Reading a key just written returns the new value; other keys are unaffected. -/
theorem mapGet_mapUpd {α : Type} (m : List (String × α)) (k k' : String) (v : α) :
    mapGet (mapUpd m k v) k' = if k' = k then some v else mapGet m k' := by
  by_cases h : k' = k
  · subst h
    simp [mapGet, mapUpd, List.find?_cons]
  · have hkk : (k == k') = false := by
      simp
      exact fun hkk => (h hkk.symm).elim
    simp [mapGet, mapUpd, List.find?_cons, hkk, h, find?_filter_ne m k k' h]

/-- A map write never produces the empty map. -/
theorem mapUpd_ne_nil {α : Type} (m : List (String × α)) (k : String) (v : α) :
    mapUpd m k v ≠ [] := by
  simp [mapUpd]

/-! ## Fallback composer -/

/-- The body of `FallbackProvider.FetchPrices` (provider.go lines 70-78),
instrumented with invocation counts: the Go code makes exactly one call to the
primary provider, returns its result unmodified when `err == nil`, and
otherwise makes exactly one call to the fallback and returns whatever it
returns.  The second and third components count the primary and the fallback
invocations made during the call. -/
def fallbackFetchPrices (primary fallback : ProviderFn) (symbols : List String) :
    FetchResult × ℕ × ℕ :=
  match primary symbols with
  | .ok prices => (.ok prices, 1, 0)
  | .error _ => (fallback symbols, 1, 1)

/-- C2: for every symbol list and every pair of wrapped providers, when the
primary returns without error the composer returns the primary's result
unmodified and never invokes the secondary; when the primary returns an error
the secondary is invoked exactly once and its result (or its error) is
returned. -/
theorem fallback_fetch_spec (primary fallback : ProviderFn) (symbols : List String) :
    (∀ prices, primary symbols = .ok prices →
        fallbackFetchPrices primary fallback symbols = (.ok prices, 1, 0)) ∧
    (∀ e, primary symbols = .error e →
        fallbackFetchPrices primary fallback symbols = (fallback symbols, 1, 1)) := by
  constructor
  · intro prices h
    simp [fallbackFetchPrices, h]
  · intro e h
    simp [fallbackFetchPrices, h]

/-- Concrete instance of `fallback_fetch_spec`: a succeeding primary short-circuits
the secondary, and a failing primary hands over to it exactly once. -/
theorem fallback_fetch_spec_witness :
    fallbackFetchPrices (fun _ => .ok []) (fun _ => .error "down") ["BTCUSDT"] =
      (.ok [], 1, 0) ∧
    fallbackFetchPrices (fun _ => .error "down") (fun _ => .ok []) ["BTCUSDT"] =
      (.ok [], 1, 1) := by
  constructor
  · exact (fallback_fetch_spec (fun _ => .ok []) (fun _ => .error "down")
      ["BTCUSDT"]).1 [] rfl
  · exact (fallback_fetch_spec (fun _ => .error "down") (fun _ => .ok [])
      ["BTCUSDT"]).2 "down" rfl

/-! ## TEFAS business-day rule -/

/-- Day-of-week of an absolute day number, with day 0 a Sunday, matching Go
`time.Weekday` numbering (Sunday = 0, ..., Friday = 5, Saturday = 6). -/
def weekday (d : ℤ) : ℤ := d % 7

/-- The body of `getLastBusinessDay` (tefas.go lines 389-402), over absolute day
numbers: `now.AddDate(0, 0, -n)` is subtraction of `n` days. -/
def getLastBusinessDay (d : ℤ) : ℤ :=
  if weekday d = 6 then d - 1
  else if weekday d = 0 then d - 2
  else d

/-- C4: on a Saturday `getLastBusinessDay` returns the day before (a Friday); on
a Sunday it returns two days before (a Friday); on any weekday it returns the
day unchanged. -/
theorem getLastBusinessDay_spec (d : ℤ) :
    (weekday d = 6 → getLastBusinessDay d = d - 1 ∧ weekday (d - 1) = 5) ∧
    (weekday d = 0 → getLastBusinessDay d = d - 2 ∧ weekday (d - 2) = 5) ∧
    (weekday d ≠ 6 → weekday d ≠ 0 → getLastBusinessDay d = d) := by
  unfold getLastBusinessDay weekday
  refine ⟨fun h => ⟨?_, ?_⟩, fun h => ⟨?_, ?_⟩, fun h6 h0 => ?_⟩
  all_goals omega

/-- Concrete instances of `getLastBusinessDay_spec`: day 6 is a Saturday, day 7 a
Sunday, day 9 a Tuesday. -/
theorem getLastBusinessDay_spec_witness :
    (getLastBusinessDay 6 = 6 - 1 ∧ weekday (6 - 1) = 5) ∧
    (getLastBusinessDay 7 = 7 - 2 ∧ weekday (7 - 2) = 5) ∧
    getLastBusinessDay 9 = 9 := by
  refine ⟨?_, ?_, ?_⟩
  · exact (getLastBusinessDay_spec 6).1 (by decide)
  · exact (getLastBusinessDay_spec 7).2.1 (by decide)
  · exact (getLastBusinessDay_spec 9).2.2 (by decide) (by decide)

/-! ## CoinGecko symbol translation -/

/-- The fixed symbol lookup table of `symbolToCoinID` (coingecko.go lines
254-265). -/
def coinIDTable : List (String × String) :=
  [("BTCUSDT", "bitcoin"), ("ETHUSDT", "ethereum"), ("SOLUSDT", "solana"),
   ("BNBUSDT", "binancecoin"), ("XRPUSDT", "ripple"), ("ADAUSDT", "cardano"),
   ("DOGEUSDT", "dogecoin"), ("DOTUSDT", "polkadot"), ("MATICUSDT", "matic-network"),
   ("AVAXUSDT", "avalanche-2")]

/-- Go `strings.TrimSuffix(symbol, "USDT")`: drop the suffix when present,
computed character-wise. -/
def trimSuffixUSDT (s : String) : String :=
  if "USDT".data.isSuffixOf s.data then String.mk (s.data.take (s.data.length - 4))
  else s

/-- Go `strings.ToLower`, as a character-wise lowercase map. -/
def toLowerStr (s : String) : String := String.mk (s.data.map Char.toLower)

/-- The deterministic fallback rule of `symbolToCoinID` (coingecko.go line 270):
`strings.ToLower(strings.TrimSuffix(symbol, "USDT"))`. -/
def coinIDFallback (s : String) : String := toLowerStr (trimSuffixUSDT s)

/-- The body of `symbolToCoinID` (coingecko.go lines 252-271): fixed table first,
deterministic strip-and-lowercase fallback for unmapped symbols. -/
def symbolToCoinID (s : String) : String :=
  match mapGet coinIDTable s with
  | some id => id
  | none => coinIDFallback s

/-- C6: the secondary adapter maps "BTCUSDT" to "bitcoin" through its fixed
table; every symbol absent from the table goes through the deterministic
fallback rule (strip the "USDT" suffix, lowercase), so "FOOUSDT" yields
"foo". -/
theorem symbolToCoinID_spec :
    symbolToCoinID "BTCUSDT" = "bitcoin" ∧
    (∀ s, mapGet coinIDTable s = none → symbolToCoinID s = coinIDFallback s) ∧
    symbolToCoinID "FOOUSDT" = "foo" := by
  refine ⟨by decide, fun s h => ?_, by decide⟩
  simp [symbolToCoinID, h]

/-- Concrete instance of `symbolToCoinID_spec`: "FOOUSDT" is not in the table, so
the fallback rule applies. -/
theorem symbolToCoinID_spec_witness :
    symbolToCoinID "FOOUSDT" = coinIDFallback "FOOUSDT" :=
  symbolToCoinID_spec.2.1 "FOOUSDT" (by decide)

/-! ## Binance adapter -/

/-- The `tickerResponse` payload of the binance 24hr-ticker endpoint (binance
provider lines 36-41): all numeric fields arrive as strings. -/
structure TickerResponse where
  symbol : String
  priceChange : String
  priceChangePercent : String
  lastPrice : String
deriving Repr, DecidableEq

/-- Longest leading run of ASCII digits of a character list, and the rest. -/
def takeDigits : List Char → List Char × List Char
  | [] => ([], [])
  | c :: cs =>
    if c.isDigit then
      let r := takeDigits cs
      (c :: r.1, r.2)
    else ([], c :: cs)

/-- Leading sign of a character list: whether a minus sign was seen, and the
rest. -/
def splitSign : List Char → Bool × List Char
  | [] => (false, [])
  | c :: cs =>
    if c = '-' then (true, cs)
    else if c = '+' then (false, cs)
    else (false, c :: cs)

/-- Numeric value of a run of ASCII digits. -/
def digitsVal (ds : List Char) : ℕ :=
  ds.foldl (fun n c => 10 * n + (c.toNat - 48)) 0

/-- The decimal fragment of Go `strconv.ParseFloat`, modelling the defensive
parses of the binance ticker fields (binance provider lines 101-103): optional
sign, digits with an optional single dot (at least one digit overall), optional
decimal exponent; `none` on anything else.  Go additionally accepts hexadecimal
mantissas and the non-finite spellings "inf"/"nan", which have no rational
value and never occur as ticker payloads; they are outside this model and count
as unparseable. -/
def parseFloat? (s : String) : Option ℚ :=
  let p1 := splitSign s.data
  let ip := takeDigits p1.2
  let fr : List Char × List Char :=
    match ip.2 with
    | c :: r => if c = '.' then takeDigits r else ([], ip.2)
    | [] => ([], [])
  if ip.1 = [] ∧ fr.1 = [] then none
  else
    let mant : ℚ := (digitsVal (ip.1 ++ fr.1) : ℚ) / (10 : ℚ) ^ fr.1.length
    let signed : ℚ := if p1.1 then -mant else mant
    match fr.2 with
    | [] => some signed
    | c :: r =>
      if c = 'e' ∨ c = 'E' then
        let es := splitSign r
        let ed := takeDigits es.2
        if ed.1 = [] ∨ ed.2 ≠ [] then none
        else some (if es.1 then signed / (10 : ℚ) ^ digitsVal ed.1
                   else signed * (10 : ℚ) ^ digitsVal ed.1)
      else none

/-- Go `v, _ := strconv.ParseFloat(s, 64)`: the discarded-error idiom leaves `v`
at zero when the parse fails. -/
def parseFloatOrZero (s : String) : ℚ := (parseFloat? s).getD 0

/-- The fixed display-name table of binance `getSymbolName` (binance provider
lines 178-196). -/
def binanceNameTable : List (String × String) :=
  [("BTCUSDT", "Bitcoin"), ("ETHUSDT", "Ethereum"), ("SOLUSDT", "Solana"),
   ("BNBUSDT", "BNB"), ("XRPUSDT", "XRP"), ("ADAUSDT", "Cardano"),
   ("DOGEUSDT", "Dogecoin"), ("DOTUSDT", "Polkadot"), ("MATICUSDT", "Polygon"),
   ("AVAXUSDT", "Avalanche")]

/-- Binance `getSymbolName`: table lookup with the symbol itself as default. -/
def getSymbolName (symbol : String) : String :=
  match mapGet binanceNameTable symbol with
  | some n => n
  | none => symbol

/-- The `providers.Price` built from one successfully fetched ticker (binance
provider lines 101-113): each string field parsed defensively. -/
def priceFromTicker (symbol : String) (t : TickerResponse) (now : ℕ) : Price :=
  { symbol := symbol, name := getSymbolName symbol,
    price := parseFloatOrZero t.lastPrice,
    dailyChange := parseFloatOrZero t.priceChange,
    dailyPct := parseFloatOrZero t.priceChangePercent,
    lastUpdated := now, stale := false }

/-- The TTL cache each adapter owns: the cached prices keyed by the adapter's
cache key, and the expiry tick (`cacheExp`). -/
structure CacheState where
  cache : List (String × Price)
  cacheExp : ℕ
deriving Repr, DecidableEq

/-- The all-cached check shared by the adapters' cache-hit branches (binance
lines 64-79, tefas lines 191-207, coingecko lines 70-87): look every requested
symbol up under its cache key, returning the cached prices in request order
only when all are present. -/
def lookupAllBy (key : String → String) (cache : List (String × Price)) :
    List String → Option (List Price)
  | [] => some []
  | s :: rest =>
    match mapGet cache (key s) with
    | none => none
    | some p => (lookupAllBy key cache rest).map (fun ps => p :: ps)

/-- The cache-update loop shared by the adapters (e.g. binance lines 118-123):
write every returned price into the cache under its cache key. -/
def updCacheWith (key : String → String) (cache : List (String × Price))
    (ps : List Price) : List (String × Price) :=
  ps.foldl (fun m p => mapUpd m (key p.symbol) p) cache

/-- Binance cache TTL: 30 seconds (binance provider line 51). -/
def binanceTTL : ℕ := 30

/-- The per-symbol outcome of the binance fetch loop (binance provider lines
87-115): `net s` is the outcome of `fetch24hrTicker` for `s` (`none` = request
failed).  On failure the symbol's cached value, marked stale, is used when
present, otherwise the symbol yields nothing; on success the ticker is parsed
defensively. -/
def binanceEntry (net : String → Option TickerResponse)
    (cache : List (String × Price)) (now : ℕ) (s : String) : Option Price :=
  match net s with
  | some t => some (priceFromTicker s t now)
  | none =>
    match mapGet cache s with
    | some c => some { c with stale := true }
    | none => none

/-- One iteration of the binance fetch loop: append the symbol's entry when it
yields one; the counter counts ticker requests (one per iteration). -/
def binanceNetStep (net : String → Option TickerResponse)
    (cache : List (String × Price)) (now : ℕ) (acc : List Price × ℕ) (s : String) :
    List Price × ℕ :=
  match binanceEntry net cache now s with
  | some p => (acc.1 ++ [p], acc.2 + 1)
  | none => (acc.1, acc.2 + 1)

/-- The network path of binance `FetchPrices` (binance provider lines 82-125):
run the fetch loop, then write the results to the cache and arm the TTL. -/
def binanceNetFetch (net : String → Option TickerResponse) (now : ℕ)
    (st : CacheState) (symbols : List String) : FetchResult × CacheState × ℕ :=
  let r := symbols.foldl (binanceNetStep net st.cache now) ([], 0)
  (.ok r.1, ⟨updCacheWith id st.cache r.1, now + binanceTTL⟩, r.2)

/-- Binance `Provider.FetchPrices` (binance provider lines 61-126): serve from
the cache when it is unexpired, non-empty and holds every requested symbol;
otherwise fetch.  The third component counts ticker requests made. -/
def binanceFetchPrices (net : String → Option TickerResponse) (now : ℕ)
    (st : CacheState) (symbols : List String) : FetchResult × CacheState × ℕ :=
  if now < st.cacheExp ∧ st.cache ≠ [] then
    match lookupAllBy id st.cache symbols with
    | some prices => (.ok prices, st, 0)
    | none => binanceNetFetch net now st symbols
  else binanceNetFetch net now st symbols

theorem foldl_binanceNetStep (net : String → Option TickerResponse)
    (cache : List (String × Price)) (now : ℕ) (symbols : List String)
    (acc : List Price) (n : ℕ) :
    symbols.foldl (binanceNetStep net cache now) (acc, n) =
      (acc ++ symbols.filterMap (binanceEntry net cache now), n + symbols.length) := by
  induction symbols generalizing acc n with
  | nil => simp
  | cons s rest ih =>
    rw [List.foldl_cons, List.filterMap_cons]
    cases he : binanceEntry net cache now s with
    | none => simp [binanceNetStep, he, ih, Nat.add_assoc, Nat.add_comm 1]
    | some p => simp [binanceNetStep, he, ih, Nat.add_assoc, Nat.add_comm 1]

theorem binanceNetFetch_eq (net : String → Option TickerResponse) (now : ℕ)
    (st : CacheState) (symbols : List String) :
    binanceNetFetch net now st symbols =
      (.ok (symbols.filterMap (binanceEntry net st.cache now)),
       ⟨updCacheWith id st.cache (symbols.filterMap (binanceEntry net st.cache now)),
        now + binanceTTL⟩,
       symbols.length) := by
  simp [binanceNetFetch, foldl_binanceNetStep]

/-- C7: a ticker response whose numeric string fields are unparseable yields a
price record with each such field defaulted to 0, and the fetch call containing
it still succeeds. -/
theorem binance_parse_defensive (t : TickerResponse) (sym : String) (now : ℕ) :
    (parseFloat? t.lastPrice = none → (priceFromTicker sym t now).price = 0) ∧
    (parseFloat? t.priceChange = none → (priceFromTicker sym t now).dailyChange = 0) ∧
    (parseFloat? t.priceChangePercent = none → (priceFromTicker sym t now).dailyPct = 0) ∧
    (binanceFetchPrices (fun _ => some t) now ⟨[], 0⟩ [sym]).1 =
      .ok [priceFromTicker sym t now] := by
  refine ⟨fun h => ?_, fun h => ?_, fun h => ?_, ?_⟩
  · simp [priceFromTicker, parseFloatOrZero, h]
  · simp [priceFromTicker, parseFloatOrZero, h]
  · simp [priceFromTicker, parseFloatOrZero, h]
  · simp [binanceFetchPrices, binanceNetFetch_eq, binanceEntry, List.filterMap_cons]

/-- Concrete instance of `binance_parse_defensive`: a ticker whose three numeric
fields are the non-numeric strings "abc", "n/a" and "--". -/
theorem binance_parse_defensive_witness :
    (priceFromTicker "BTCUSDT" ⟨"BTCUSDT", "n/a", "--", "abc"⟩ 0).price = 0 ∧
    (priceFromTicker "BTCUSDT" ⟨"BTCUSDT", "n/a", "--", "abc"⟩ 0).dailyChange = 0 ∧
    (priceFromTicker "BTCUSDT" ⟨"BTCUSDT", "n/a", "--", "abc"⟩ 0).dailyPct = 0 := by
  refine ⟨?_, ?_, ?_⟩
  · exact (binance_parse_defensive ⟨"BTCUSDT", "n/a", "--", "abc"⟩ "BTCUSDT" 0).1
      (by decide)
  · exact (binance_parse_defensive ⟨"BTCUSDT", "n/a", "--", "abc"⟩ "BTCUSDT" 0).2.1
      (by decide)
  · exact (binance_parse_defensive ⟨"BTCUSDT", "n/a", "--", "abc"⟩ "BTCUSDT" 0).2.2.1
      (by decide)

/-- C10: binance `FetchPrices` always returns a nil error, whatever the
per-symbol request outcomes and cache contents; on the request-making path the
result holds exactly the symbols whose request succeeded or that had a cached
value (the rest are silently omitted); consequently a fallback composer with
this adapter as primary returns its result and never invokes the secondary. -/
theorem binanceFetch_total (net : String → Option TickerResponse) (now : ℕ)
    (st : CacheState) (symbols : List String) :
    (∃ prices, (binanceFetchPrices net now st symbols).1 = .ok prices) ∧
    ((¬ (now < st.cacheExp ∧ st.cache ≠ []) ∨ lookupAllBy id st.cache symbols = none) →
      (binanceFetchPrices net now st symbols).1 =
        .ok (symbols.filterMap (binanceEntry net st.cache now))) ∧
    (∀ fb, fallbackFetchPrices (fun ss => (binanceFetchPrices net now st ss).1) fb symbols =
      ((binanceFetchPrices net now st symbols).1, 1, 0)) := by
  have hok : ∃ prices, (binanceFetchPrices net now st symbols).1 = .ok prices := by
    unfold binanceFetchPrices
    split
    · cases hl : lookupAllBy id st.cache symbols with
      | none =>
        exact ⟨symbols.filterMap (binanceEntry net st.cache now),
          by simp [hl, binanceNetFetch_eq]⟩
      | some prices => exact ⟨prices, by simp [hl]⟩
    · exact ⟨symbols.filterMap (binanceEntry net st.cache now),
        by simp [binanceNetFetch_eq]⟩
  refine ⟨hok, fun h => ?_, fun fb => ?_⟩
  · unfold binanceFetchPrices
    split
    · rename_i hc
      cases hl : lookupAllBy id st.cache symbols with
      | none => simp [binanceNetFetch_eq]
      | some prices =>
        rcases h with h | h
        · exact absurd hc h
        · rw [hl] at h
          exact absurd h (by simp)
    · simp [binanceNetFetch_eq]
  · obtain ⟨prices, hp⟩ := hok
    simp [fallbackFetchPrices, hp]

/-- Concrete instance of `binanceFetch_total`: with an empty cache and a failing
request the symbol is omitted, the call still succeeds, and the composer never
reaches the secondary. -/
theorem binanceFetch_total_witness :
    (binanceFetchPrices (fun _ => none) 5 ⟨[], 0⟩ ["BTCUSDT"]).1 =
      .ok (["BTCUSDT"].filterMap (binanceEntry (fun _ => none) [] 5)) ∧
    fallbackFetchPrices (fun ss => (binanceFetchPrices (fun _ => none) 5 ⟨[], 0⟩ ss).1)
        (fun _ => .error "down") ["BTCUSDT"] =
      ((binanceFetchPrices (fun _ => none) 5 ⟨[], 0⟩ ["BTCUSDT"]).1, 1, 0) := by
  constructor
  · exact (binanceFetch_total (fun _ => none) 5 ⟨[], 0⟩ ["BTCUSDT"]).2.1
      (Or.inl (by decide))
  · exact (binanceFetch_total (fun _ => none) 5 ⟨[], 0⟩ ["BTCUSDT"]).2.2
      (fun _ => .error "down")

/-! ## TEFAS adapter -/

/-- One row of the raw TEFAS response (tefas.go lines 28-36), restricted to the
fields the fetch path reads. -/
structure RawFundData where
  fonKodu : String
  fonUnvan : String
  fiyat : ℚ
deriving Repr, DecidableEq

/-- TEFAS cache TTL: 5 minutes (tefas.go line 75). -/
def tefasTTL : ℕ := 300

/-- The fund display-name table of tefas `getFundName` (tefas.go lines 410-425). -/
def tefasFundNameTable : List (String × String) :=
  [("KUT", "Kuveyt Türk Portföy Kısa Vadeli Kira Sertifikaları Katılım Fonu"),
   ("TI2", "TEB Portföy İkinci Değişken Fon"),
   ("AFT", "Ak Portföy Amerikan Doları Fon Sepeti Fonu"),
   ("YZG", "Yapı Kredi Portföy Gümüş Fonu"),
   ("KTV", "Kuveyt Türk Portföy Altın Katılım Fonu"),
   ("HKH", "Halk Portföy Kısa Vadeli Borçlanma Araçları Fonu"),
   ("IOG", "İş Portföy Orta Vadeli Borçlanma Araçları Fonu")]

/-- Tefas `getFundName`: table lookup with a "<code> Fund" default. -/
def getFundName (code : String) : String :=
  match mapGet tefasFundNameTable code with
  | some n => n
  | none => code ++ " Fund"

/-- The symbol-to-row map built from the raw rows (tefas.go lines 246-249). -/
def buildFundMap (rows : List RawFundData) : List (String × RawFundData) :=
  rows.foldl (fun m f => mapUpd m f.fonKodu f) []

/-- The price built for one requested fund code (tefas.go lines 256-282): a
fresh price (stale on weekends) when the row is present, a zero-price stale
placeholder when it is not. -/
def tefasPriceFor (fundMap : List (String × RawFundData)) (isWeekend : Bool)
    (now : ℕ) (s : String) : Price :=
  match mapGet fundMap s with
  | some f =>
    { symbol := f.fonKodu, name := f.fonUnvan, price := f.fiyat,
      dailyChange := 0, dailyPct := 0, lastUpdated := now, stale := isWeekend }
  | none =>
    { symbol := s, name := getFundName s, price := 0, dailyChange := 0,
      dailyPct := 0, lastUpdated := now, stale := true }

/-- The stale-cache fallback list built on API failure (tefas.go lines 228-234):
the cached entries for the requested symbols, each marked stale. -/
def tefasStaleFromCache (cache : List (String × Price)) (symbols : List String) :
    List Price :=
  symbols.filterMap (fun s => (mapGet cache s).map (fun p => { p with stale := true }))

/-- The network path of tefas `FetchPrices` (tefas.go lines 210-292): ensure the
browser session is started (`startOk`), make the one in-session API call
(`api`, the outcome of `callAPI` for the last business day), and on its failure
fall back to the stale cache when it covers any requested symbol, else fail.
The third component counts API calls made. -/
def tefasNetFetch (api : Except String (List RawFundData)) (startOk : Bool)
    (isWeekend : Bool) (now : ℕ) (st : CacheState) (symbols : List String) :
    FetchResult × CacheState × ℕ :=
  if startOk then
    match api with
    | .error e =>
      if st.cache ≠ [] then
        let stalePrices := tefasStaleFromCache st.cache symbols
        if stalePrices ≠ [] then (.ok stalePrices, st, 1)
        else (.error ("failed to fetch TEFAS data: " ++ e), st, 1)
      else (.error ("failed to fetch TEFAS data: " ++ e), st, 1)
    | .ok rows =>
      let prices := symbols.map (tefasPriceFor (buildFundMap rows) isWeekend now)
      (.ok prices, ⟨updCacheWith id st.cache prices, now + tefasTTL⟩, 1)
  else (.error "failed to start provider", st, 0)

/-- Tefas `Provider.FetchPrices` (tefas.go lines 188-293): serve from the cache
when it is unexpired, non-empty and holds every requested symbol (the Go code's
extra `len(prices) == len(symbols)` check is implied by the all-cached loop);
otherwise start the session and fetch. -/
def tefasFetchPrices (api : Except String (List RawFundData)) (startOk : Bool)
    (isWeekend : Bool) (now : ℕ) (st : CacheState) (symbols : List String) :
    FetchResult × CacheState × ℕ :=
  if now < st.cacheExp ∧ st.cache ≠ [] then
    match lookupAllBy id st.cache symbols with
    | some prices => (.ok prices, st, 0)
    | none => tefasNetFetch api startOk isWeekend now st symbols
  else tefasNetFetch api startOk isWeekend now st symbols

/-- C9: when the tefas upstream in-session call fails entirely (and the fresh
all-cached branch was not available), the call succeeds with the cached entries
for the requested symbols marked stale whenever the cache holds any of them,
and fails with an error when it holds none. -/
theorem tefas_stale_fallback (e : String) (isWeekend : Bool) (now : ℕ)
    (st : CacheState) (symbols : List String)
    (hmiss : ¬ (now < st.cacheExp ∧ st.cache ≠ [] ∧
      (lookupAllBy id st.cache symbols).isSome)) :
    (tefasStaleFromCache st.cache symbols ≠ [] ↔
      ∃ s ∈ symbols, (mapGet st.cache s).isSome) ∧
    (tefasStaleFromCache st.cache symbols ≠ [] →
      tefasFetchPrices (.error e) true isWeekend now st symbols =
        (.ok (tefasStaleFromCache st.cache symbols), st, 1)) ∧
    (tefasStaleFromCache st.cache symbols = [] →
      ∃ e2, (tefasFetchPrices (.error e) true isWeekend now st symbols).1 =
        .error e2) := by
  have hbranch : tefasFetchPrices (.error e) true isWeekend now st symbols =
      tefasNetFetch (.error e) true isWeekend now st symbols := by
    unfold tefasFetchPrices
    split
    · rename_i hc
      cases hl : lookupAllBy id st.cache symbols with
      | none => rfl
      | some ps => exact absurd ⟨hc.1, hc.2, by simp [hl]⟩ hmiss
    · rfl
  have hiff : tefasStaleFromCache st.cache symbols ≠ [] ↔
      ∃ s ∈ symbols, (mapGet st.cache s).isSome := by
    rw [Ne, tefasStaleFromCache, List.filterMap_eq_nil_iff]
    simp [Option.isSome_iff_ne_none]
  refine ⟨hiff, fun hne => ?_, fun heq => ?_⟩
  · have hc : st.cache ≠ [] := by
      rcases hiff.mp hne with ⟨s, _, hsome⟩
      intro h0
      rw [h0] at hsome
      simp [mapGet] at hsome
    rw [hbranch]
    simp [tefasNetFetch, hc, hne]
  · rw [hbranch]
    by_cases hc : st.cache = []
    · exact ⟨"failed to fetch TEFAS data: " ++ e, by simp [tefasNetFetch, hc]⟩
    · exact ⟨"failed to fetch TEFAS data: " ++ e, by simp [tefasNetFetch, hc, heq]⟩

/-- A cached fund price used by concrete instances. -/
def samplePrice : Price :=
  { symbol := "KUT", name := "KUT Fund", price := 13316 / 1000, dailyChange := 0,
    dailyPct := 0, lastUpdated := 0, stale := false }

/-- Concrete instances of `tefas_stale_fallback`: an expired cache holding "KUT"
serves the stale entry; the same cache holds nothing for "ZZZ", so that call
fails. -/
theorem tefas_stale_fallback_witness :
    tefasFetchPrices (.error "WAF") true false 5 ⟨[("KUT", samplePrice)], 0⟩ ["KUT"] =
      (.ok (tefasStaleFromCache [("KUT", samplePrice)] ["KUT"]),
       ⟨[("KUT", samplePrice)], 0⟩, 1) ∧
    ∃ e2, (tefasFetchPrices (.error "WAF") true false 5 ⟨[("KUT", samplePrice)], 0⟩
      ["ZZZ"]).1 = .error e2 := by
  constructor
  · exact (tefas_stale_fallback "WAF" false 5 ⟨[("KUT", samplePrice)], 0⟩ ["KUT"]
      (by simp)).2.1 (by decide)
  · exact (tefas_stale_fallback "WAF" false 5 ⟨[("KUT", samplePrice)], 0⟩ ["ZZZ"]
      (by simp)).2.2 (by decide)

/-! ## CoinGecko adapter -/

/-- One coin's entry in the CoinGecko simple-price response (coingecko.go lines
42-45). -/
structure GeckoData where
  usd : ℚ
  usd24hChange : ℚ
deriving Repr, DecidableEq

/-- CoinGecko cache TTL: 60 seconds (coingecko.go line 55). -/
def coingeckoTTL : ℕ := 60

/-- The display-name table of `coinIDToName` (coingecko.go lines 274-292). -/
def coinNameTable : List (String × String) :=
  [("bitcoin", "Bitcoin"), ("ethereum", "Ethereum"), ("solana", "Solana"),
   ("binancecoin", "BNB"), ("ripple", "XRP"), ("cardano", "Cardano"),
   ("dogecoin", "Dogecoin"), ("polkadot", "Polkadot"),
   ("matic-network", "Polygon"), ("avalanche-2", "Avalanche")]

/-- CoinGecko `coinIDToName`: table lookup with the coin ID itself as default. -/
def coinIDToName (coinID : String) : String :=
  match mapGet coinNameTable coinID with
  | some n => n
  | none => coinID

/-- The price built from one coin's response data (coingecko.go lines 105-121):
the record keeps the originally requested symbol. -/
def geckoPriceFor (s : String) (d : GeckoData) (now : ℕ) : Price :=
  { symbol := s, name := coinIDToName (symbolToCoinID s), price := d.usd,
    dailyChange := 0, dailyPct := d.usd24hChange, lastUpdated := now,
    stale := false }

/-- The network path of coingecko `FetchPrices` (coingecko.go lines 89-133):
`api` is the decoded body of the one simple-price request (`none` = request
failed); symbols whose coin ID is absent from the response are skipped; results
are cached under their coin ID.  The third component counts requests made. -/
def coingeckoNetFetch (api : Option (List (String × GeckoData))) (now : ℕ)
    (st : CacheState) (symbols : List String) : FetchResult × CacheState × ℕ :=
  match api with
  | none => (.error "unexpected status", st, 1)
  | some data =>
    let prices := symbols.filterMap
      (fun s => (mapGet data (symbolToCoinID s)).map (fun d => geckoPriceFor s d now))
    (.ok prices, ⟨updCacheWith symbolToCoinID st.cache prices, now + coingeckoTTL⟩, 1)

/-- CoinGecko `Provider.FetchPrices` (coingecko.go lines 67-134): the cache-hit
branch looks each requested symbol up under its coin ID. -/
def coingeckoFetchPrices (api : Option (List (String × GeckoData))) (now : ℕ)
    (st : CacheState) (symbols : List String) : FetchResult × CacheState × ℕ :=
  if now < st.cacheExp ∧ st.cache ≠ [] then
    match lookupAllBy symbolToCoinID st.cache symbols with
    | some prices => (.ok prices, st, 0)
    | none => coingeckoNetFetch api now st symbols
  else coingeckoNetFetch api now st symbols

/-- Equality of fetch outcomes is decidable (componentwise). -/
instance exceptDecEq {ε α : Type} [DecidableEq ε] [DecidableEq α] :
    DecidableEq (Except ε α) := fun a b =>
  match a, b with
  | .ok x, .ok y => decidable_of_iff (x = y) (by simp)
  | .error x, .error y => decidable_of_iff (x = y) (by simp)
  | .ok _, .error _ => isFalse (by simp)
  | .error _, .ok _ => isFalse (by simp)

/-- The response data used by the C8 counterexample: one coin, "foo". -/
def geckoSampleData : List (String × GeckoData) := [("foo", ⟨5, 1⟩)]

/-- C8 counterexample: the coingecko cache is keyed by coin ID, and the symbols
"FOOUSDT" and "FOO" both map to the coin ID "foo", so they share one cache
slot.  A cold-cache fetch for both returns two records carrying the two
requested symbols, but a second call within the TTL returns the single cached
record (symbol "FOO") twice — not the identical records of the first response —
so the claim fails as stated for this adapter and symbol set.  (The
no-new-network-call half still holds: the second call makes 0 requests.) -/
theorem coingecko_ttl_cache_counterexample :
    (coingeckoFetchPrices (some geckoSampleData) 0 ⟨[], 0⟩ ["FOOUSDT", "FOO"]).1 =
      .ok [geckoPriceFor "FOOUSDT" ⟨5, 1⟩ 0, geckoPriceFor "FOO" ⟨5, 1⟩ 0] ∧
    (coingeckoFetchPrices (some geckoSampleData) 30
        (coingeckoFetchPrices (some geckoSampleData) 0 ⟨[], 0⟩
          ["FOOUSDT", "FOO"]).2.1 ["FOOUSDT", "FOO"]).1 =
      .ok [geckoPriceFor "FOO" ⟨5, 1⟩ 0, geckoPriceFor "FOO" ⟨5, 1⟩ 0] ∧
    (coingeckoFetchPrices (some geckoSampleData) 30
        (coingeckoFetchPrices (some geckoSampleData) 0 ⟨[], 0⟩
          ["FOOUSDT", "FOO"]).2.1 ["FOOUSDT", "FOO"]).2.2 = 0 ∧
    (geckoPriceFor "FOOUSDT" ⟨5, 1⟩ 0).symbol ≠ (geckoPriceFor "FOO" ⟨5, 1⟩ 0).symbol := by
  refine ⟨by decide, by decide, by decide, by decide⟩

/-! ## Cache round-trip lemmas -/

theorem updCacheWith_ne_nil_of_ne (key : String → String)
    (m : List (String × Price)) (ps : List Price) (h : m ≠ []) :
    updCacheWith key m ps ≠ [] := by
  induction ps generalizing m with
  | nil => exact h
  | cons p rest ih => exact ih (mapUpd m (key p.symbol) p) (mapUpd_ne_nil m _ p)

theorem updCacheWith_cons_ne_nil (key : String → String)
    (m : List (String × Price)) (p : Price) (ps : List Price) :
    updCacheWith key m (p :: ps) ≠ [] :=
  updCacheWith_ne_nil_of_ne key (mapUpd m (key p.symbol) p) ps
    (mapUpd_ne_nil m (key p.symbol) p)

theorem filterMap_eq_map_of_some {α β : Type} (f : α → Option β) (g : α → β)
    (l : List α) (h : ∀ a ∈ l, f a = some (g a)) : l.filterMap f = l.map g := by
  induction l with
  | nil => rfl
  | cons a rest ih =>
    simp [List.filterMap_cons, h a (by simp),
      ih (fun x hx => h x (by simp [hx]))]

/-- Once the cache maps `k` to `v`, writing prices whose records under `k` all
equal `v` keeps `k` mapped to `v`. -/
theorem mapGet_updCacheWith_stable (key : String → String) (g : String → Price)
    (k : String) (v : Price) (rest : List String) :
    ∀ m : List (String × Price),
    (∀ x ∈ rest, (g x).symbol = x) →
    (∀ x ∈ rest, key x = k → g x = v) →
    mapGet m k = some v →
    mapGet (updCacheWith key m (rest.map g)) k = some v := by
  induction rest with
  | nil => exact fun m _ _ hm => hm
  | cons x rest ih =>
    intro m hsym hcol hm
    rw [List.map_cons]
    show mapGet (updCacheWith key (mapUpd m (key (g x).symbol) (g x)) (rest.map g)) k =
      some v
    rw [hsym x (by simp)]
    refine ih (mapUpd m (key x) (g x)) (fun y hy => hsym y (by simp [hy]))
      (fun y hy hk => hcol y (by simp [hy]) hk) ?_
    rw [mapGet_mapUpd]
    by_cases hkx : k = key x
    · rw [if_pos hkx, hcol x (by simp) hkx.symm]
    · rw [if_neg hkx]
      exact hm

/-- Writing the fresh prices of a symbol list whose records are determined by
their cache key leaves every requested key mapped to its record. -/
theorem mapGet_updCacheWith (key : String → String) (g : String → Price)
    (symbols : List String) (s : String) :
    ∀ m : List (String × Price), s ∈ symbols →
    (∀ x ∈ symbols, (g x).symbol = x) →
    (∀ x ∈ symbols, key x = key s → g x = g s) →
    mapGet (updCacheWith key m (symbols.map g)) (key s) = some (g s) := by
  induction symbols with
  | nil => exact fun m hs _ _ => absurd hs (by simp)
  | cons x rest ih =>
    intro m hs hsym hdet
    rw [List.map_cons]
    show mapGet (updCacheWith key (mapUpd m (key (g x).symbol) (g x)) (rest.map g))
      (key s) = some (g s)
    rw [hsym x (by simp)]
    by_cases hkx : key x = key s
    · refine mapGet_updCacheWith_stable key g (key s) (g s) rest
        (mapUpd m (key x) (g x))
        (fun y hy => hsym y (by simp [hy]))
        (fun y hy hk => hdet y (by simp [hy]) hk) ?_
      rw [hkx, mapGet_mapUpd, if_pos rfl, hdet x (by simp) hkx]
    · have hsx : s ∈ rest := by
        rcases List.mem_cons.mp hs with h | h
        · exact absurd (congrArg key h.symm) hkx
        · exact h
      exact ih (mapUpd m (key x) (g x)) hsx
        (fun y hy => hsym y (by simp [hy]))
        (fun y hy hk => hdet y (by simp [hy]) hk)

theorem lookupAllBy_eq_map (key : String → String) (cache : List (String × Price))
    (g : String → Price) (symbols : List String)
    (h : ∀ s ∈ symbols, mapGet cache (key s) = some (g s)) :
    lookupAllBy key cache symbols = some (symbols.map g) := by
  induction symbols with
  | nil => rfl
  | cons s rest ih =>
    simp [lookupAllBy, h s (by simp), ih (fun x hx => h x (by simp [hx]))]

/-- The price binance computes for `s` when its ticker request succeeds. -/
def binanceFresh (net : String → Option TickerResponse) (now : ℕ) (s : String) :
    Price :=
  priceFromTicker s ((net s).getD ⟨"", "", "", ""⟩) now

theorem binance_cold_fetch (net : String → Option TickerResponse) (e0 t0 : ℕ)
    (symbols : List String) (hnet : ∀ s ∈ symbols, (net s).isSome) :
    binanceFetchPrices net t0 ⟨[], e0⟩ symbols =
      (.ok (symbols.map (binanceFresh net t0)),
       ⟨updCacheWith id [] (symbols.map (binanceFresh net t0)), t0 + binanceTTL⟩,
       symbols.length) := by
  have hentry : ∀ s ∈ symbols,
      binanceEntry net [] t0 s = some (binanceFresh net t0 s) := by
    intro s hs
    rcases Option.isSome_iff_exists.mp (hnet s hs) with ⟨t, ht⟩
    simp [binanceEntry, ht, binanceFresh]
  have hmap := filterMap_eq_map_of_some (binanceEntry net [] t0)
    (binanceFresh net t0) symbols hentry
  simp [binanceFetchPrices, binanceNetFetch_eq, hmap]

theorem binance_cache_serve (net2 : String → Option TickerResponse) (t1 : ℕ)
    (C : List (String × Price)) (e : ℕ) (symbols : List String) (ps : List Price)
    (ht : t1 < e) (hC : C ≠ []) (hl : lookupAllBy id C symbols = some ps) :
    binanceFetchPrices net2 t1 ⟨C, e⟩ symbols = (.ok ps, ⟨C, e⟩, 0) := by
  simp [binanceFetchPrices, ht, hC, hl]

theorem entries_buildFundMap (rows : List RawFundData) :
    ∀ m : List (String × RawFundData),
    (∀ kv ∈ m, kv.2.fonKodu = kv.1) →
    ∀ kv ∈ rows.foldl (fun m f => mapUpd m f.fonKodu f) m, kv.2.fonKodu = kv.1 := by
  induction rows with
  | nil => exact fun m hm => hm
  | cons f rest ih =>
    intro m hm
    rw [List.foldl_cons]
    refine ih (mapUpd m f.fonKodu f) ?_
    intro kv hkv
    rcases List.mem_cons.mp hkv with h | h
    · rw [h]
    · exact hm kv (List.mem_of_mem_filter h)

/-- A row found in the fund map was filed under its own fund code. -/
theorem mapGet_buildFundMap (rows : List RawFundData) (s : String) (f : RawFundData)
    (h : mapGet (buildFundMap rows) s = some f) : f.fonKodu = s := by
  unfold mapGet at h
  cases hf : (buildFundMap rows).find? (fun kv => kv.1 == s) with
  | none => rw [hf] at h; cases h
  | some kv =>
    rw [hf] at h
    simp at h
    have hmem := List.mem_of_find?_eq_some hf
    have hk : kv.1 = s := by simpa using List.find?_some hf
    have hinv := entries_buildFundMap rows [] (by simp) kv hmem
    rw [← h, hinv, hk]

theorem tefas_cold_fetch (rows : List RawFundData) (w : Bool) (e0 t0 : ℕ)
    (symbols : List String) :
    tefasFetchPrices (.ok rows) true w t0 ⟨[], e0⟩ symbols =
      (.ok (symbols.map (tefasPriceFor (buildFundMap rows) w t0)),
       ⟨updCacheWith id [] (symbols.map (tefasPriceFor (buildFundMap rows) w t0)),
        t0 + tefasTTL⟩, 1) := by
  simp [tefasFetchPrices, tefasNetFetch]

theorem tefas_cache_serve (api2 : Except String (List RawFundData)) (so2 w2 : Bool)
    (t1 : ℕ) (C : List (String × Price)) (e : ℕ) (symbols : List String)
    (ps : List Price) (ht : t1 < e) (hC : C ≠ [])
    (hl : lookupAllBy id C symbols = some ps) :
    tefasFetchPrices api2 so2 w2 t1 ⟨C, e⟩ symbols = (.ok ps, ⟨C, e⟩, 0) := by
  simp [tefasFetchPrices, ht, hC, hl]

/-- The price coingecko computes for `s` when the response covers its coin ID. -/
def geckoFresh (data : List (String × GeckoData)) (now : ℕ) (s : String) : Price :=
  geckoPriceFor s ((mapGet data (symbolToCoinID s)).getD ⟨0, 0⟩) now

theorem gecko_cold_fetch (data : List (String × GeckoData)) (e0 t0 : ℕ)
    (symbols : List String)
    (hdata : ∀ s ∈ symbols, (mapGet data (symbolToCoinID s)).isSome) :
    coingeckoFetchPrices (some data) t0 ⟨[], e0⟩ symbols =
      (.ok (symbols.map (geckoFresh data t0)),
       ⟨updCacheWith symbolToCoinID [] (symbols.map (geckoFresh data t0)),
        t0 + coingeckoTTL⟩, 1) := by
  have hentry : ∀ s ∈ symbols,
      (mapGet data (symbolToCoinID s)).map (fun d => geckoPriceFor s d t0) =
        some (geckoFresh data t0 s) := by
    intro s hs
    rcases Option.isSome_iff_exists.mp (hdata s hs) with ⟨d, hd⟩
    simp [hd, geckoFresh]
  have hmap := filterMap_eq_map_of_some
    (fun s => (mapGet data (symbolToCoinID s)).map (fun d => geckoPriceFor s d t0))
    (geckoFresh data t0) symbols hentry
  simp [coingeckoFetchPrices, coingeckoNetFetch, hmap]

theorem gecko_cache_serve (api2 : Option (List (String × GeckoData))) (t1 : ℕ)
    (C : List (String × Price)) (e : ℕ) (symbols : List String) (ps : List Price)
    (ht : t1 < e) (hC : C ≠ [])
    (hl : lookupAllBy symbolToCoinID C symbols = some ps) :
    coingeckoFetchPrices api2 t1 ⟨C, e⟩ symbols = (.ok ps, ⟨C, e⟩, 0) := by
  simp [coingeckoFetchPrices, ht, hC, hl]

/-- C8 (amended): after a cold-cache fetch that obtained data for every
requested symbol, a second `FetchPrices` call for the same symbols within the
adapter's TTL window returns the identical price records and performs no new
upstream request — unconditionally for the binance and tefas adapters, whose
caches are keyed by the symbol itself, and for the coingecko adapter under the
proviso (forced by the counterexample) that the symbol-to-coin-ID mapping is
injective on the requested symbol set, since colliding symbols share one cache
slot. -/
theorem ttl_cache_second_call_amended :
    (∀ (net net2 : String → Option TickerResponse) (e0 t0 t1 : ℕ)
        (symbols : List String),
      (∀ s ∈ symbols, (net s).isSome) → t1 < t0 + binanceTTL →
      (binanceFetchPrices net2 t1 (binanceFetchPrices net t0 ⟨[], e0⟩ symbols).2.1
          symbols).1 = (binanceFetchPrices net t0 ⟨[], e0⟩ symbols).1 ∧
      (binanceFetchPrices net2 t1 (binanceFetchPrices net t0 ⟨[], e0⟩ symbols).2.1
          symbols).2.2 = 0) ∧
    (∀ (rows : List RawFundData) (api2 : Except String (List RawFundData))
        (so2 w w2 : Bool) (e0 t0 t1 : ℕ) (symbols : List String),
      symbols ≠ [] → t1 < t0 + tefasTTL →
      (tefasFetchPrices api2 so2 w2 t1
          (tefasFetchPrices (.ok rows) true w t0 ⟨[], e0⟩ symbols).2.1 symbols).1 =
        (tefasFetchPrices (.ok rows) true w t0 ⟨[], e0⟩ symbols).1 ∧
      (tefasFetchPrices api2 so2 w2 t1
          (tefasFetchPrices (.ok rows) true w t0 ⟨[], e0⟩ symbols).2.1 symbols).2.2 = 0) ∧
    (∀ (data : List (String × GeckoData)) (api2 : Option (List (String × GeckoData)))
        (e0 t0 t1 : ℕ) (symbols : List String),
      symbols ≠ [] →
      (∀ s ∈ symbols, (mapGet data (symbolToCoinID s)).isSome) →
      (∀ s1 ∈ symbols, ∀ s2 ∈ symbols,
        symbolToCoinID s1 = symbolToCoinID s2 → s1 = s2) →
      t1 < t0 + coingeckoTTL →
      (coingeckoFetchPrices api2 t1
          (coingeckoFetchPrices (some data) t0 ⟨[], e0⟩ symbols).2.1 symbols).1 =
        (coingeckoFetchPrices (some data) t0 ⟨[], e0⟩ symbols).1 ∧
      (coingeckoFetchPrices api2 t1
          (coingeckoFetchPrices (some data) t0 ⟨[], e0⟩ symbols).2.1 symbols).2.2 = 0) := by
  refine ⟨?_, ?_, ?_⟩
  · intro net net2 e0 t0 t1 symbols hnet ht1
    cases symbols with
    | nil =>
      rw [binance_cold_fetch net e0 t0 [] (by simp)]
      constructor
      · simp [binanceFetchPrices, binanceNetFetch_eq, updCacheWith]
      · simp [binanceFetchPrices, binanceNetFetch_eq, updCacheWith]
    | cons s0 rest =>
      have hcold := binance_cold_fetch net e0 t0 (s0 :: rest) hnet
      have hC : updCacheWith id []
          ((s0 :: rest).map (binanceFresh net t0)) ≠ [] := by
        rw [List.map_cons]
        exact updCacheWith_cons_ne_nil id [] _ _
      have hget : ∀ s ∈ s0 :: rest,
          mapGet (updCacheWith id [] ((s0 :: rest).map (binanceFresh net t0)))
            (id s) = some (binanceFresh net t0 s) := by
        intro s hs
        exact mapGet_updCacheWith id (binanceFresh net t0) (s0 :: rest) s [] hs
          (fun x _ => rfl)
          (fun x _ hk => by simp only [id_eq] at hk; rw [hk])
      have hserve := binance_cache_serve net2 t1
        (updCacheWith id [] ((s0 :: rest).map (binanceFresh net t0)))
        (t0 + binanceTTL) (s0 :: rest) ((s0 :: rest).map (binanceFresh net t0))
        ht1 hC (lookupAllBy_eq_map id _ (binanceFresh net t0) _ hget)
      constructor
      · rw [hcold]
        exact congrArg (fun x => x.1) hserve
      · rw [hcold]
        exact congrArg (fun x => x.2.2) hserve
  · intro rows api2 so2 w w2 e0 t0 t1 symbols hne ht1
    cases symbols with
    | nil => exact absurd rfl hne
    | cons s0 rest =>
      have hcold := tefas_cold_fetch rows w e0 t0 (s0 :: rest)
      have hsym : ∀ x ∈ s0 :: rest,
          (tefasPriceFor (buildFundMap rows) w t0 x).symbol = x := by
        intro x _
        cases hf : mapGet (buildFundMap rows) x with
        | none => simp [tefasPriceFor, hf]
        | some f => simp [tefasPriceFor, hf, mapGet_buildFundMap rows x f hf]
      have hC : updCacheWith id []
          ((s0 :: rest).map (tefasPriceFor (buildFundMap rows) w t0)) ≠ [] := by
        rw [List.map_cons]
        exact updCacheWith_cons_ne_nil id [] _ _
      have hget : ∀ s ∈ s0 :: rest,
          mapGet (updCacheWith id []
            ((s0 :: rest).map (tefasPriceFor (buildFundMap rows) w t0)))
            (id s) = some (tefasPriceFor (buildFundMap rows) w t0 s) := by
        intro s hs
        exact mapGet_updCacheWith id (tefasPriceFor (buildFundMap rows) w t0)
          (s0 :: rest) s [] hs hsym
          (fun x _ hk => by simp only [id_eq] at hk; rw [hk])
      have hserve := tefas_cache_serve api2 so2 w2 t1
        (updCacheWith id [] ((s0 :: rest).map (tefasPriceFor (buildFundMap rows) w t0)))
        (t0 + tefasTTL) (s0 :: rest)
        ((s0 :: rest).map (tefasPriceFor (buildFundMap rows) w t0))
        ht1 hC (lookupAllBy_eq_map id _ (tefasPriceFor (buildFundMap rows) w t0) _ hget)
      constructor
      · rw [hcold]
        exact congrArg (fun x => x.1) hserve
      · rw [hcold]
        exact congrArg (fun x => x.2.2) hserve
  · intro data api2 e0 t0 t1 symbols hne hdata hinj ht1
    cases symbols with
    | nil => exact absurd rfl hne
    | cons s0 rest =>
      have hcold := gecko_cold_fetch data e0 t0 (s0 :: rest) hdata
      have hC : updCacheWith symbolToCoinID []
          ((s0 :: rest).map (geckoFresh data t0)) ≠ [] := by
        rw [List.map_cons]
        exact updCacheWith_cons_ne_nil symbolToCoinID [] _ _
      have hget : ∀ s ∈ s0 :: rest,
          mapGet (updCacheWith symbolToCoinID []
            ((s0 :: rest).map (geckoFresh data t0)))
            (symbolToCoinID s) = some (geckoFresh data t0 s) := by
        intro s hs
        exact mapGet_updCacheWith symbolToCoinID (geckoFresh data t0)
          (s0 :: rest) s [] hs
          (fun x _ => rfl)
          (fun x hx hk => by rw [hinj x hx s hs hk])
      have hserve := gecko_cache_serve api2 t1
        (updCacheWith symbolToCoinID [] ((s0 :: rest).map (geckoFresh data t0)))
        (t0 + coingeckoTTL) (s0 :: rest) ((s0 :: rest).map (geckoFresh data t0))
        ht1 hC (lookupAllBy_eq_map symbolToCoinID _ (geckoFresh data t0) _ hget)
      constructor
      · rw [hcold]
        exact congrArg (fun x => x.1) hserve
      · rw [hcold]
        exact congrArg (fun x => x.2.2) hserve

/-- The ticker used by the concrete C8 instances. -/
def witTicker : TickerResponse := ⟨"BTCUSDT", "1", "2", "3"⟩

/-- A network function that always returns `witTicker`. -/
def witNet : String → Option TickerResponse := fun _ => some witTicker

/-- Concrete instances of `ttl_cache_second_call_amended`, one per adapter. -/
theorem ttl_cache_second_call_amended_witness :
    ((binanceFetchPrices witNet 10 (binanceFetchPrices witNet 0 ⟨[], 0⟩
        ["BTCUSDT"]).2.1 ["BTCUSDT"]).1 =
      (binanceFetchPrices witNet 0 ⟨[], 0⟩ ["BTCUSDT"]).1 ∧
     (binanceFetchPrices witNet 10 (binanceFetchPrices witNet 0 ⟨[], 0⟩
        ["BTCUSDT"]).2.1 ["BTCUSDT"]).2.2 = 0) ∧
    ((tefasFetchPrices (.error "x") false true 100
        (tefasFetchPrices (.ok [⟨"KUT", "Kut Fonu", 10⟩]) true false 0 ⟨[], 0⟩
          ["KUT"]).2.1 ["KUT"]).1 =
      (tefasFetchPrices (.ok [⟨"KUT", "Kut Fonu", 10⟩]) true false 0 ⟨[], 0⟩
        ["KUT"]).1 ∧
     (tefasFetchPrices (.error "x") false true 100
        (tefasFetchPrices (.ok [⟨"KUT", "Kut Fonu", 10⟩]) true false 0 ⟨[], 0⟩
          ["KUT"]).2.1 ["KUT"]).2.2 = 0) ∧
    ((coingeckoFetchPrices none 59
        (coingeckoFetchPrices (some [("bitcoin", ⟨9, 0⟩)]) 0 ⟨[], 0⟩
          ["BTCUSDT"]).2.1 ["BTCUSDT"]).1 =
      (coingeckoFetchPrices (some [("bitcoin", ⟨9, 0⟩)]) 0 ⟨[], 0⟩ ["BTCUSDT"]).1 ∧
     (coingeckoFetchPrices none 59
        (coingeckoFetchPrices (some [("bitcoin", ⟨9, 0⟩)]) 0 ⟨[], 0⟩
          ["BTCUSDT"]).2.1 ["BTCUSDT"]).2.2 = 0) := by
  refine ⟨?_, ?_, ?_⟩
  · exact ttl_cache_second_call_amended.1 witNet witNet 0 0 10 ["BTCUSDT"]
      (fun s _ => by simp [witNet]) (by decide)
  · exact ttl_cache_second_call_amended.2.1 [⟨"KUT", "Kut Fonu", 10⟩] (.error "x")
      false false true 0 0 100 ["KUT"] (by simp) (by decide)
  · exact ttl_cache_second_call_amended.2.2 [("bitcoin", ⟨9, 0⟩)] none 0 0 59
      ["BTCUSDT"] (by simp) (by decide) (by decide) (by decide)

/-! ## Aggregation engine -/

/-- A `storage.Holding` as the aggregation borrows it (read-only): symbol,
quantity and total cost basis. -/
structure Holding where
  symbol : String
  quantity : ℚ
  costBasis : ℚ
deriving Repr, DecidableEq

/-- The `FundPrice` response record (handlers.go lines 118-131). -/
structure FundPrice where
  code : String
  name : String
  price : ℚ
  dailyChange : ℚ
  dailyPct : ℚ
  quantity : ℚ
  value : ℚ
  costBasis : ℚ
  pnl : ℚ
  pnlPct : ℚ
  lastUpdated : ℕ
  stale : Bool
deriving Repr, DecidableEq

/-- The `CryptoPrice` response record (handlers.go lines 134-146).  Unlike
`FundPrice`, it has no stale field. -/
structure CryptoPrice where
  symbol : String
  name : String
  price : ℚ
  dailyChange : ℚ
  dailyPct : ℚ
  quantity : ℚ
  value : ℚ
  costBasis : ℚ
  pnl : ℚ
  pnlPct : ℚ
  lastUpdated : ℕ
deriving Repr, DecidableEq

/-- The JSON keys `FundPrice` serializes to, from its struct tags (handlers.go
lines 118-131): note the "stale" key. -/
def fundPriceJSONKeys : List String :=
  ["code", "name", "price", "daily_change", "daily_pct", "quantity", "value",
   "cost_basis", "pnl", "pnl_pct", "last_updated", "stale"]

/-- The JSON keys `CryptoPrice` serializes to, from its struct tags (handlers.go
lines 134-146): there is no "stale" key. -/
def cryptoPriceJSONKeys : List String :=
  ["symbol", "name", "price", "daily_change", "daily_pct", "quantity", "value",
   "cost_basis", "pnl", "pnl_pct", "last_updated"]

/-- The guarded P&L percentage computed at every aggregation site (handlers.go
lines 195-198, 264-267, 311-314, 372-375, 458-461, 517-520, 570-573): zero
whenever the cost basis is not positive, so the division never runs on a zero
denominator. -/
def pnlPctOf (pnl costBasis : ℚ) : ℚ :=
  if 0 < costBasis then pnl / costBasis * 100 else 0

/-- The per-class holdings lookup map (handlers.go lines 163-170). -/
def buildHoldingMap (hs : List Holding) : List (String × Holding) :=
  hs.foldl (fun m h => mapUpd m h.symbol h) []

/-- The display-name table of `getFundDisplayName` (handlers.go lines 770-786);
it has one more entry ("KGM") than the tefas adapter's own table. -/
def fundDisplayNameTable : List (String × String) :=
  [("KUT", "Kuveyt Türk Portföy Kısa Vadeli Kira Sertifikaları Katılım Fonu"),
   ("TI2", "TEB Portföy İkinci Değişken Fon"),
   ("AFT", "Ak Portföy Amerikan Doları Fon Sepeti Fonu"),
   ("YZG", "Yapı Kredi Portföy Gümüş Fonu"),
   ("KTV", "Kuveyt Türk Portföy Altın Katılım Fonu"),
   ("HKH", "Halk Portföy Kısa Vadeli Borçlanma Araçları Fonu"),
   ("IOG", "İş Portföy Orta Vadeli Borçlanma Araçları Fonu"),
   ("KGM", "Kuveyt Türk Portföy Gümüş Katılım Fonu")]

/-- Handlers `getFundDisplayName`: table lookup with a "<code> Fund" default. -/
def getFundDisplayName (code : String) : String :=
  match mapGet fundDisplayNameTable code with
  | some n => n
  | none => code ++ " Fund"

/-- The fund entry built from one fetched price (handlers.go lines 184-213):
quantity and cost basis default to zero when no holding matches the price's
symbol. -/
def mkFundPrice (m : List (String × Holding)) (p : Price) : FundPrice :=
  { code := p.symbol, name := p.name, price := p.price,
    dailyChange := p.dailyChange, dailyPct := p.dailyPct,
    quantity := match mapGet m p.symbol with | some h => h.quantity | none => 0,
    value := p.price * (match mapGet m p.symbol with | some h => h.quantity | none => 0),
    costBasis := match mapGet m p.symbol with | some h => h.costBasis | none => 0,
    pnl := p.price * (match mapGet m p.symbol with | some h => h.quantity | none => 0) -
      (match mapGet m p.symbol with | some h => h.costBasis | none => 0),
    pnlPct := pnlPctOf
      (p.price * (match mapGet m p.symbol with | some h => h.quantity | none => 0) -
        (match mapGet m p.symbol with | some h => h.costBasis | none => 0))
      (match mapGet m p.symbol with | some h => h.costBasis | none => 0),
    lastUpdated := p.lastUpdated, stale := p.stale }

/-- The zero-priced stale fund placeholder (handlers.go lines 222-236). -/
def fundPlaceholder (now : ℕ) (h : Holding) : FundPrice :=
  { code := h.symbol, name := getFundDisplayName h.symbol, price := 0,
    dailyChange := 0, dailyPct := 0, quantity := h.quantity, value := 0,
    costBasis := h.costBasis, pnl := 0, pnlPct := 0, lastUpdated := now,
    stale := true }

/-- The crypto entry built from one fetched price (handlers.go lines 253-281). -/
def mkCryptoPrice (m : List (String × Holding)) (p : Price) : CryptoPrice :=
  { symbol := p.symbol, name := p.name, price := p.price,
    dailyChange := p.dailyChange, dailyPct := p.dailyPct,
    quantity := match mapGet m p.symbol with | some h => h.quantity | none => 0,
    value := p.price * (match mapGet m p.symbol with | some h => h.quantity | none => 0),
    costBasis := match mapGet m p.symbol with | some h => h.costBasis | none => 0,
    pnl := p.price * (match mapGet m p.symbol with | some h => h.quantity | none => 0) -
      (match mapGet m p.symbol with | some h => h.costBasis | none => 0),
    pnlPct := pnlPctOf
      (p.price * (match mapGet m p.symbol with | some h => h.quantity | none => 0) -
        (match mapGet m p.symbol with | some h => h.costBasis | none => 0))
      (match mapGet m p.symbol with | some h => h.costBasis | none => 0),
    lastUpdated := p.lastUpdated }

/-- The zero-priced crypto placeholder (handlers.go lines 290-303): named by its
symbol; the record has no stale field to set. -/
def cryptoPlaceholder (now : ℕ) (h : Holding) : CryptoPrice :=
  { symbol := h.symbol, name := h.symbol, price := 0, dailyChange := 0,
    dailyPct := 0, quantity := h.quantity, value := 0, costBasis := h.costBasis,
    pnl := 0, pnlPct := 0, lastUpdated := now }

/-- The fund entries of `GetPortfolioSummary` (handlers.go lines 172-239): fetch
when a provider is configured and there are fund codes; on fetch success map
the returned prices, otherwise emit one placeholder per holding (Go guards the
placeholder loop with `len(fundHoldings) > 0`, which changes nothing since the
loop over an empty slice appends nothing). -/
def summaryFunds (tc : Bool) (tefasFetch : ProviderFn) (fundHoldings : List Holding)
    (now : ℕ) : List FundPrice :=
  if tc ∧ fundHoldings.map (fun h => h.symbol) ≠ [] then
    match tefasFetch (fundHoldings.map (fun h => h.symbol)) with
    | .ok ps => ps.map (mkFundPrice (buildHoldingMap fundHoldings))
    | .error _ => fundHoldings.map (fundPlaceholder now)
  else fundHoldings.map (fundPlaceholder now)

/-- The crypto entries of `GetPortfolioSummary` (handlers.go lines 241-306),
mirroring `summaryFunds`. -/
def summaryCryptos (cc : Bool) (cryptoFetch : ProviderFn)
    (cryptoHoldings : List Holding) (now : ℕ) : List CryptoPrice :=
  if cc ∧ cryptoHoldings.map (fun h => h.symbol) ≠ [] then
    match cryptoFetch (cryptoHoldings.map (fun h => h.symbol)) with
    | .ok ps => ps.map (mkCryptoPrice (buildHoldingMap cryptoHoldings))
    | .error _ => cryptoHoldings.map (cryptoPlaceholder now)
  else cryptoHoldings.map (cryptoPlaceholder now)

/-- Sum of the `value` fields.  Go accumulates `tefasValue`/`cryptoValue` only
in the fetch-success loop, but placeholder entries all carry `value = 0`, so in
both branches the accumulator equals this sum over the emitted entries. -/
def fundsValueSum (fs : List FundPrice) : ℚ := (fs.map (fun f => f.value)).sum

/-- Sum of the `costBasis` fields: Go adds each entry's cost basis on both the
success and the placeholder path. -/
def fundsCostSum (fs : List FundPrice) : ℚ := (fs.map (fun f => f.costBasis)).sum

def cryptosValueSum (cs : List CryptoPrice) : ℚ := (cs.map (fun c => c.value)).sum

def cryptosCostSum (cs : List CryptoPrice) : ℚ := (cs.map (fun c => c.costBasis)).sum

/-- The `PortfolioSummary` response record (handlers.go lines 101-115). -/
structure PortfolioSummary where
  totalValue : ℚ
  totalCostBasis : ℚ
  totalPnL : ℚ
  totalPnLPct : ℚ
  tefasValue : ℚ
  tefasCostBasis : ℚ
  tefasPnL : ℚ
  cryptoValue : ℚ
  cryptoCostBasis : ℚ
  cryptoPnL : ℚ
  lastUpdated : ℕ
  funds : List FundPrice
  cryptos : List CryptoPrice
deriving Repr, DecidableEq

/-- `GetPortfolioSummary` (handlers.go lines 149-331): the handler always
answers HTTP 200 with this record — there is no error return on this path.
`tc`/`cc` say whether the tefas/crypto provider is configured (non-nil); the
fetch outcomes are the `FetchPrices` results. -/
def getPortfolioSummary (tc cc : Bool) (tefasFetch cryptoFetch : ProviderFn)
    (fundHoldings cryptoHoldings : List Holding) (now : ℕ) : PortfolioSummary :=
  let funds := summaryFunds tc tefasFetch fundHoldings now
  let cryptos := summaryCryptos cc cryptoFetch cryptoHoldings now
  let tefasValue := fundsValueSum funds
  let tefasCostBasis := fundsCostSum funds
  let cryptoValue := cryptosValueSum cryptos
  let cryptoCostBasis := cryptosCostSum cryptos
  let totalValue := tefasValue + cryptoValue
  let totalCostBasis := tefasCostBasis + cryptoCostBasis
  { totalValue := totalValue, totalCostBasis := totalCostBasis,
    totalPnL := totalValue - totalCostBasis,
    totalPnLPct := pnlPctOf (totalValue - totalCostBasis) totalCostBasis,
    tefasValue := tefasValue, tefasCostBasis := tefasCostBasis,
    tefasPnL := tefasValue - tefasCostBasis,
    cryptoValue := cryptoValue, cryptoCostBasis := cryptoCostBasis,
    cryptoPnL := cryptoValue - cryptoCostBasis,
    lastUpdated := now, funds := funds, cryptos := cryptos }

/-- `GetCryptos` (handlers.go lines 488-547): on a provider fetch failure the
handler answers HTTP 503 ("Failed to fetch crypto data"), modelled as
`.error 503`; otherwise HTTP 200 with the entry list. -/
def getCryptos (cc : Bool) (cryptoFetch : ProviderFn)
    (cryptoHoldings : List Holding) : Except ℕ (List CryptoPrice) :=
  if cc ∧ cryptoHoldings.map (fun h => h.symbol) ≠ [] then
    match cryptoFetch (cryptoHoldings.map (fun h => h.symbol)) with
    | .ok ps => .ok (ps.map (mkCryptoPrice (buildHoldingMap cryptoHoldings)))
    | .error _ => .error 503
  else .ok []

theorem summaryFunds_pnlPct (tc : Bool) (tf : ProviderFn) (fh : List Holding)
    (now : ℕ) :
    ∀ f ∈ summaryFunds tc tf fh now, f.costBasis = 0 → f.pnlPct = 0 := by
  intro f hf h0
  unfold summaryFunds at hf
  split at hf
  · split at hf
    · rcases List.mem_map.mp hf with ⟨p, _, rfl⟩
      simp only [mkFundPrice] at h0 ⊢
      rw [h0]
      simp [pnlPctOf]
    · rcases List.mem_map.mp hf with ⟨h, _, rfl⟩
      simp [fundPlaceholder]
  · rcases List.mem_map.mp hf with ⟨h, _, rfl⟩
    simp [fundPlaceholder]

theorem summaryCryptos_pnlPct (cc : Bool) (cf : ProviderFn) (ch : List Holding)
    (now : ℕ) :
    ∀ c ∈ summaryCryptos cc cf ch now, c.costBasis = 0 → c.pnlPct = 0 := by
  intro c hc h0
  unfold summaryCryptos at hc
  split at hc
  · split at hc
    · rcases List.mem_map.mp hc with ⟨p, _, rfl⟩
      simp only [mkCryptoPrice] at h0 ⊢
      rw [h0]
      simp [pnlPctOf]
    · rcases List.mem_map.mp hc with ⟨h, _, rfl⟩
      simp [cryptoPlaceholder]
  · rcases List.mem_map.mp hc with ⟨h, _, rfl⟩
    simp [cryptoPlaceholder]

/-- C3: in every portfolio summary, any fund or crypto entry whose cost basis
is zero has pnl_pct = 0, and a zero grand-total cost basis gives a zero total
pnl_pct — the division by the cost basis is guarded and never runs on a zero
denominator. -/
theorem pnlPct_guard (tc cc : Bool) (tf cf : ProviderFn) (fh ch : List Holding)
    (now : ℕ) :
    (∀ f ∈ (getPortfolioSummary tc cc tf cf fh ch now).funds,
      f.costBasis = 0 → f.pnlPct = 0) ∧
    (∀ c ∈ (getPortfolioSummary tc cc tf cf fh ch now).cryptos,
      c.costBasis = 0 → c.pnlPct = 0) ∧
    ((getPortfolioSummary tc cc tf cf fh ch now).totalCostBasis = 0 →
      (getPortfolioSummary tc cc tf cf fh ch now).totalPnLPct = 0) := by
  refine ⟨fun f hf h0 => ?_, fun c hc h0 => ?_, fun h0 => ?_⟩
  · exact summaryFunds_pnlPct tc tf fh now f hf h0
  · exact summaryCryptos_pnlPct cc cf ch now c hc h0
  · simp only [getPortfolioSummary] at h0 ⊢
    rw [h0]
    simp [pnlPctOf]

/-- Concrete instance of `pnlPct_guard`: a zero-cost holding's placeholder and a
zero-cost summary both report pnl_pct = 0. -/
theorem pnlPct_guard_witness :
    (fundPlaceholder 0 ⟨"KUT", 1, 0⟩).pnlPct = 0 ∧
    (getPortfolioSummary false false (fun _ => .error "e") (fun _ => .error "e")
      [⟨"KUT", 1, 0⟩] [] 0).totalPnLPct = 0 := by
  constructor
  · exact (pnlPct_guard false false (fun _ => .error "e") (fun _ => .error "e")
      [⟨"KUT", 1, 0⟩] [] 0).1 (fundPlaceholder 0 ⟨"KUT", 1, 0⟩) (by decide) (by decide)
  · exact (pnlPct_guard false false (fun _ => .error "e") (fun _ => .error "e")
      [⟨"KUT", 1, 0⟩] [] 0).2.2
      (by simp [getPortfolioSummary, summaryFunds, summaryCryptos, fundsCostSum,
        cryptosCostSum, fundPlaceholder])

/-- A crypto holding used by concrete aggregation instances. -/
def sampleCryptoHolding : Holding := ⟨"ETHUSDT", 2, 50⟩

/-- C5 counterexample: with no crypto provider configured the aggregation emits
one placeholder per crypto holding (with zero value), but the crypto response
record (handlers.go lines 133-146) has no stale field at all — its JSON
serialization carries no "stale" key, unlike the fund record — so the claim's
"each with stale = true" is false for the crypto class.  (The spec itself
scopes the stale flag of placeholders to the fund class.) -/
theorem crypto_placeholder_no_stale_counterexample :
    (getPortfolioSummary false false (fun _ => .error "e") (fun _ => .error "e")
        [] [sampleCryptoHolding] 0).cryptos =
      [cryptoPlaceholder 0 sampleCryptoHolding] ∧
    (cryptoPlaceholder 0 sampleCryptoHolding).value = 0 ∧
    "stale" ∉ cryptoPriceJSONKeys ∧
    "stale" ∈ fundPriceJSONKeys := by
  refine ⟨by decide, by decide, by decide, by decide⟩

/-- C5 (amended): aggregation with no provider configured for a class yields
exactly one placeholder per holding of that class, each with value = 0 and
pnl = 0; fund-class placeholders additionally carry stale = true, while crypto
placeholders have no stale field to carry (see the counterexample). -/
theorem placeholder_synthesis_amended (cc2 tc2 : Bool) (tf cf tf2 cf2 : ProviderFn)
    (fh ch : List Holding) (now : ℕ) :
    ((getPortfolioSummary false cc2 tf cf fh ch now).funds =
        fh.map (fundPlaceholder now) ∧
      (getPortfolioSummary false cc2 tf cf fh ch now).funds.length = fh.length ∧
      ∀ f ∈ (getPortfolioSummary false cc2 tf cf fh ch now).funds,
        f.stale = true ∧ f.value = 0 ∧ f.pnl = 0) ∧
    ((getPortfolioSummary tc2 false tf2 cf2 fh ch now).cryptos =
        ch.map (cryptoPlaceholder now) ∧
      (getPortfolioSummary tc2 false tf2 cf2 fh ch now).cryptos.length = ch.length ∧
      ∀ c ∈ (getPortfolioSummary tc2 false tf2 cf2 fh ch now).cryptos,
        c.value = 0 ∧ c.pnl = 0) := by
  have hfe : (getPortfolioSummary false cc2 tf cf fh ch now).funds =
      fh.map (fundPlaceholder now) := by
    show summaryFunds false tf fh now = fh.map (fundPlaceholder now)
    simp [summaryFunds]
  have hce : (getPortfolioSummary tc2 false tf2 cf2 fh ch now).cryptos =
      ch.map (cryptoPlaceholder now) := by
    show summaryCryptos false cf2 ch now = ch.map (cryptoPlaceholder now)
    simp [summaryCryptos]
  refine ⟨⟨hfe, ?_, ?_⟩, ⟨hce, ?_, ?_⟩⟩
  · rw [hfe, List.length_map]
  · rw [hfe]
    intro f hff
    rcases List.mem_map.mp hff with ⟨h, _, rfl⟩
    exact ⟨rfl, rfl, rfl⟩
  · rw [hce, List.length_map]
  · rw [hce]
    intro c hcc
    rcases List.mem_map.mp hcc with ⟨h, _, rfl⟩
    exact ⟨rfl, rfl⟩

/-- Concrete instance of `placeholder_synthesis_amended`: one fund and one
crypto holding with no providers configured. -/
theorem placeholder_synthesis_amended_witness :
    (getPortfolioSummary false false (fun _ => .error "e") (fun _ => .error "e")
        [⟨"KUT", 1, 100⟩] [sampleCryptoHolding] 0).funds =
      [Holding.mk "KUT" 1 100].map (fundPlaceholder 0) ∧
    ((fundPlaceholder 0 ⟨"KUT", 1, 100⟩).stale = true ∧
      (fundPlaceholder 0 ⟨"KUT", 1, 100⟩).value = 0 ∧
      (fundPlaceholder 0 ⟨"KUT", 1, 100⟩).pnl = 0) ∧
    (getPortfolioSummary false false (fun _ => .error "e") (fun _ => .error "e")
        [⟨"KUT", 1, 100⟩] [sampleCryptoHolding] 0).cryptos =
      [sampleCryptoHolding].map (cryptoPlaceholder 0) ∧
    ((cryptoPlaceholder 0 sampleCryptoHolding).value = 0 ∧
      (cryptoPlaceholder 0 sampleCryptoHolding).pnl = 0) := by
  refine ⟨?_, ?_, ?_, ?_⟩
  · exact (placeholder_synthesis_amended false false (fun _ => .error "e")
      (fun _ => .error "e") (fun _ => .error "e") (fun _ => .error "e")
      [⟨"KUT", 1, 100⟩] [sampleCryptoHolding] 0).1.1
  · exact (placeholder_synthesis_amended false false (fun _ => .error "e")
      (fun _ => .error "e") (fun _ => .error "e") (fun _ => .error "e")
      [⟨"KUT", 1, 100⟩] [sampleCryptoHolding] 0).1.2.2
      (fundPlaceholder 0 ⟨"KUT", 1, 100⟩) (by decide)
  · exact (placeholder_synthesis_amended false false (fun _ => .error "e")
      (fun _ => .error "e") (fun _ => .error "e") (fun _ => .error "e")
      [⟨"KUT", 1, 100⟩] [sampleCryptoHolding] 0).2.1
  · exact (placeholder_synthesis_amended false false (fun _ => .error "e")
      (fun _ => .error "e") (fun _ => .error "e") (fun _ => .error "e")
      [⟨"KUT", 1, 100⟩] [sampleCryptoHolding] 0).2.2.2
      (cryptoPlaceholder 0 sampleCryptoHolding) (by decide)

/-- The crypto holding used by the C1 counterexample. -/
def sampleHolding : Holding := ⟨"BTCUSDT", 1, 100⟩

/-- C1 counterexample: `GetCryptos` (handlers.go lines 536-541) — a
holdings-valuation listing joined against the crypto holdings — answers with
an HTTP 503 error and no entries when the provider fetch fails, dropping the
holding; so the claim's "no error is surfaced to the end caller and no holding
is dropped" is false for this aggregation path. -/
theorem getCryptos_error_counterexample :
    getCryptos true (fun _ => .error "fetch failed") [sampleHolding] =
      .error 503 := by
  decide

/-- C1 (amended): for the portfolio-summary aggregation a failing fetch never
surfaces an error — the handler's response type has no error case — and the
response holds exactly one zero-priced placeholder per holding of each class;
the crypto-listing endpoint `GetCryptos`, by contrast, surfaces a 503 error on
this path (see the counterexample). -/
theorem summary_degrades_gracefully (ef ec : String) (tf cf : ProviderFn)
    (fh ch : List Holding) (now : ℕ)
    (hf : tf (fh.map (fun h => h.symbol)) = .error ef)
    (hc : cf (ch.map (fun h => h.symbol)) = .error ec) :
    (getPortfolioSummary true true tf cf fh ch now).funds.map (fun f => f.code) =
      fh.map (fun h => h.symbol) ∧
    (getPortfolioSummary true true tf cf fh ch now).cryptos.map (fun c => c.symbol) =
      ch.map (fun h => h.symbol) ∧
    (∀ f ∈ (getPortfolioSummary true true tf cf fh ch now).funds,
      f.price = 0 ∧ f.value = 0 ∧ f.stale = true) ∧
    (∀ c ∈ (getPortfolioSummary true true tf cf fh ch now).cryptos,
      c.price = 0 ∧ c.value = 0) := by
  have hfe : (getPortfolioSummary true true tf cf fh ch now).funds =
      fh.map (fundPlaceholder now) := by
    show summaryFunds true tf fh now = fh.map (fundPlaceholder now)
    unfold summaryFunds
    split
    · rw [hf]
    · rfl
  have hce : (getPortfolioSummary true true tf cf fh ch now).cryptos =
      ch.map (cryptoPlaceholder now) := by
    show summaryCryptos true cf ch now = ch.map (cryptoPlaceholder now)
    unfold summaryCryptos
    split
    · rw [hc]
    · rfl
  refine ⟨?_, ?_, ?_, ?_⟩
  · rw [hfe, List.map_map]
    rfl
  · rw [hce, List.map_map]
    rfl
  · rw [hfe]
    intro f hff
    rcases List.mem_map.mp hff with ⟨h, _, rfl⟩
    exact ⟨rfl, rfl, rfl⟩
  · rw [hce]
    intro c hcc
    rcases List.mem_map.mp hcc with ⟨h, _, rfl⟩
    exact ⟨rfl, rfl⟩

/-- Concrete instance of `summary_degrades_gracefully`: one holding of each
class, both fetches failing. -/
theorem summary_degrades_gracefully_witness :
    (getPortfolioSummary true true (fun _ => .error "down") (fun _ => .error "down")
        [⟨"KUT", 1, 100⟩] [sampleHolding] 0).funds.map (fun f => f.code) =
      [Holding.mk "KUT" 1 100].map (fun h => h.symbol) ∧
    (getPortfolioSummary true true (fun _ => .error "down") (fun _ => .error "down")
        [⟨"KUT", 1, 100⟩] [sampleHolding] 0).cryptos.map (fun c => c.symbol) =
      [sampleHolding].map (fun h => h.symbol) := by
  constructor
  · exact (summary_degrades_gracefully "down" "down" (fun _ => .error "down")
      (fun _ => .error "down") [⟨"KUT", 1, 100⟩] [sampleHolding] 0 rfl rfl).1
  · exact (summary_degrades_gracefully "down" "down" (fun _ => .error "down")
      (fun _ => .error "down") [⟨"KUT", 1, 100⟩] [sampleHolding] 0 rfl rfl).2.1

end Prism
